import Mathlib

/-!
Verification of the hyprlauncher indexing/ranking engine (src/search.rs,
src/launcher.rs, src/config.rs) against its natural-language specification.

The Rust code is shallowly embedded: pure data flow is translated into Lean
functions; the external collaborators the engine calls (the SkimMatcherV2
fuzzy matcher, the `/usr/bin` binary probe, the heatmap file contents, the
system clock, the X11 active-window probe, the rink arithmetic evaluator,
and the percent encoder) are passed in as an explicit `ExtEnv` record of
functions, exactly at the call sites where the Rust code invokes them.
Machine integers: Rust `i64` values are modelled as `Int` (the scores the
engine computes stay far from the 64-bit boundary); the one place where
unsigned wraparound is semantically relevant — the `(now - entry.last_used)`
`u64` subtraction in `calculate_bonus_score` — is modelled with explicit
mod-2^64 arithmetic (`wrapSub64`, `toI64`), matching Rust release-mode
semantics. Strings are treated at `char` granularity; `to_lowercase` is
modelled as ASCII lowercasing (all concrete inputs used in witnesses and
counterexamples are ASCII, where the two coincide, as do Rust byte positions
and char positions).
-/

/-- Models Rust `char::to_ascii_lowercase` composed over a string; also used
for `str::to_lowercase` (ASCII fragment, see the header note). -/
def asciiLower (s : String) : String :=
  String.mk (s.data.map Char.toLower)

/-- Models Rust `str::eq_ignore_ascii_case`. -/
def eqIgnoreAsciiCase (a b : String) : Bool :=
  asciiLower a == asciiLower b

/-- Helper: does the first char list lead (prefix) the second. -/
def listLeads : List Char → List Char → Bool
  | [], _ => true
  | _ :: _, [] => false
  | a :: as, b :: bs => a == b && listLeads as bs

/-- Helper: does `needle` occur contiguously inside `hay`. -/
def listInfixB (needle : List Char) : List Char → Bool
  | [] => listLeads needle []
  | b :: bs => listLeads needle (b :: bs) || listInfixB needle bs

/-- Models Rust `str::contains(&str)` (substring test). -/
def containsStr (hay pat : String) : Bool :=
  listInfixB pat.data hay.data

/-- Models Rust `str::ends_with(&str)`. -/
def strEndsWith (s pat : String) : Bool :=
  listLeads pat.data.reverse s.data.reverse

/-- Lexicographic strict order on char lists, models Rust `str::cmp`
(byte order and codepoint order coincide on ASCII). -/
def listLexLt : List Char → List Char → Bool
  | [], [] => false
  | [], _ :: _ => true
  | _ :: _, [] => false
  | a :: as, b :: bs => decide (a < b) || (a == b && listLexLt as bs)

/-- Strict string order derived from `listLexLt`. -/
def strLtB (a b : String) : Bool :=
  listLexLt a.data b.data

/-- Total string order `a ≤ b` as the Rust comparator induces it. -/
def strLeB (a b : String) : Bool :=
  !(strLtB b a)

/-- Mirrors `DesktopAction` from src/launcher.rs. -/
structure DesktopAction where
  name : String
  exec : String
  icon_name : Option String
deriving DecidableEq, Repr

/-- Mirrors `EntryType` from src/launcher.rs. -/
inductive EntryType where
  | Application
  | File
deriving DecidableEq, Repr

/-- Mirrors `AppEntry` from src/launcher.rs (`launch_count : u32` and the
`last_used : u64` seconds stamp become `Nat`). -/
structure AppEntry where
  name : String
  description : String
  path : String
  exec : String
  icon_name : String
  launch_count : Nat
  last_used : Option Nat
  entry_type : EntryType
  score_boost : Int
  keywords : List String
  categories : List String
  terminal : Bool
  actions : List DesktopAction
deriving DecidableEq, Repr

/-- Mirrors `SearchResult` from src/search.rs. -/
structure SearchResult where
  app : AppEntry
  score : Int
deriving DecidableEq, Repr

/-- Mirrors `HistoryEntry` from src/search.rs (`last_used : u64`,
`use_count : i64`, the latter produced from a `u32` heatmap count). -/
structure HistoryEntry where
  last_used : Nat
  use_count : Int
deriving DecidableEq, Repr

/-- Mirrors the `window` configuration fields read by src/search.rs
(`max_entries : usize`, `show_actions : bool` from src/config.rs). -/
structure WindowCfg where
  max_entries : Nat
  show_actions : Bool
deriving DecidableEq, Repr

/-- Mirrors the `dmenu` configuration table from src/config.rs. -/
structure DmenuCfg where
  allow_invalid : Bool
  case_sensitive : Bool
deriving DecidableEq, Repr

/-- Mirrors `PresetEngine` from src/config.rs. -/
inductive PresetEngine where
  | DuckDuckGo
  | Google
  | Bing
  | Brave
  | Ecosia
  | Startpage
deriving DecidableEq, Repr

/-- Mirrors `SearchEngine` from src/config.rs. -/
inductive SearchEngine where
  | Preset (e : PresetEngine)
  | Custom (url : String)
deriving DecidableEq, Repr

/-- Mirrors `SearchEngine::get_url` from src/config.rs. -/
def SearchEngine.get_url : SearchEngine → String
  | SearchEngine.Preset PresetEngine.DuckDuckGo => "https://duckduckgo.com/?q="
  | SearchEngine.Preset PresetEngine.Google => "https://www.google.com/search?q="
  | SearchEngine.Preset PresetEngine.Bing => "https://www.bing.com/search?q="
  | SearchEngine.Preset PresetEngine.Brave => "https://search.brave.com/search?q="
  | SearchEngine.Preset PresetEngine.Ecosia => "https://www.ecosia.org/search?q="
  | SearchEngine.Preset PresetEngine.Startpage => "https://www.startpage.com/do/search?q="
  | SearchEngine.Custom url => url

/-- Mirrors `SearchPrefix` from src/config.rs (the `prefix` string field is
named `pfx` here because `prefix` is a Lean keyword). -/
structure SearchPfx where
  pfx : String
  url : String
deriving DecidableEq, Repr

/-- Mirrors `WebSearch` from src/config.rs; `pfxList` is the `prefixes`
vector. -/
structure WebSearch where
  enabled : Bool
  engine : SearchEngine
  pfxList : List SearchPfx
deriving DecidableEq, Repr

/-- Modelled from the spec: src/search.rs reads `config.modes.calculator`,
but the `modes` table is absent from the src/config.rs snapshot; the spec
names it `calculator_enabled : bool` in ResolvedSearchConfig. -/
structure ModesCfg where
  calculator : Bool
deriving DecidableEq, Repr

/-- The slice of `Config` (src/config.rs) consumed by src/search.rs. -/
structure Config where
  window : WindowCfg
  dmenu : DmenuCfg
  web_search : WebSearch
  modes : ModesCfg
deriving DecidableEq, Repr

/-- External collaborators invoked from the search path, passed explicitly:
`matcher` is `SkimMatcherV2::fuzzy_match (haystack, needle)`, `binProbe`
is `check_binary` (filesystem probe of `/usr/bin`), `history` is the
`load_history` heatmap snapshot, `now` is the unix clock in seconds,
`activeClasses` are the lowercased X11 window classes collected by
`get_active_window_classes`, `calcEval` is `handle_calculation` (rink),
and `pctEncode` is `utf8_percent_encode` with `NON_ALPHANUMERIC`. -/
structure ExtEnv where
  matcher : String → String → Option Int
  binProbe : String → Option SearchResult
  history : String → Option HistoryEntry
  now : Nat
  activeClasses : List String
  calcEval : String → String
  pctEncode : String → String

/-- Constant `BONUS_SCORE_ICON_NAME` of src/search.rs. -/
def BONUS_SCORE_ICON_NAME : Int := 1000

/-- Constant `BONUS_SCORE_BINARY` of src/search.rs (also the exact-name
match bonus). -/
def BONUS_SCORE_BINARY : Int := 3000

/-- Constant `BONUS_SCORE_KEYWORD_MATCH` of src/search.rs. -/
def BONUS_SCORE_KEYWORD_MATCH : Int := 2500

/-- Constant `BONUS_SCORE_CATEGORY_MATCH` of src/search.rs. -/
def BONUS_SCORE_CATEGORY_MATCH : Int := 2000

/-- Constant `BONUS_SCORE_WEB_SEARCH` of src/search.rs. -/
def BONUS_SCORE_WEB_SEARCH : Int := -1000

/-- Constant `BONUS_SCORE_CALC` of src/search.rs. -/
def BONUS_SCORE_CALC : Int := 1000

/-- Constant `OPEN_WINDOW_PENALTY` of src/search.rs. -/
def OPEN_WINDOW_PENALTY : Int := -500

/-- The `u64` modulus. -/
def u64Mod : Nat := 2 ^ 64

/-- Rust release-mode wrapping `u64` subtraction `a - b`. -/
def wrapSub64 (a b : Nat) : Nat :=
  (a % u64Mod + (u64Mod - b % u64Mod)) % u64Mod

/-- Rust `as i64` reinterpretation of a `u64` value. -/
def toI64 (n : Nat) : Int :=
  if n % u64Mod < 2 ^ 63 then (n % u64Mod : Int) else (n % u64Mod : Int) - (u64Mod : Int)

/-- Mirrors `should_exclude_web_search` of src/search.rs. -/
def should_exclude_web_search (query : String) : Bool :=
  ["__config_reload__", "__refresh__"].any (fun term => eqIgnoreAsciiCase query term)

/-- Mirrors `calculate_bonus_score` of src/search.rs. The heatmap snapshot,
clock and window-class probe results are drawn from `ext`; the
`(now - entry.last_used) as i64` unsigned subtraction keeps its wrapping
release-mode semantics via `wrapSub64` and `toI64`. -/
def calculate_bonus_score (ext : ExtEnv) (app : AppEntry) : Int :=
  let score : Int :=
    match ext.history app.name with
    | some entry =>
        let seconds_since_used : Int := toI64 (wrapSub64 ext.now entry.last_used)
        (10000 - Int.tdiv seconds_since_used 10) + min (entry.use_count * 20) 200
    | none => min ((app.launch_count : Int) * 20) 200
  let score : Int :=
    if app.icon_name ≠ "application-x-executable" then score + BONUS_SCORE_ICON_NAME
    else score
  if ext.activeClasses.any (fun c =>
      containsStr (asciiLower app.name) c || containsStr (asciiLower app.exec) c)
  then score + OPEN_WINDOW_PENALTY
  else score

/-- Stated per the specification's words (the bonus formula of section 4.6):
`10000 - (seconds_since_last_used / 10) + min(use_count * 20, 200)` for a
recorded entry, `min(static_launch_count * 20, 200)` otherwise; plus a fixed
icon bonus when the icon is not the generic fallback; minus a fixed penalty
when an active window class occurs in the lowercased name or exec. Used to
compare `calculate_bonus_score` against the spec. -/
def spec_bonus_formula (ext : ExtEnv) (app : AppEntry) : Int :=
  (match ext.history app.name with
   | some entry =>
       10000 - Int.tdiv ((ext.now : Int) - (entry.last_used : Int)) 10 +
         min (entry.use_count * 20) 200
   | none => min ((app.launch_count : Int) * 20) 200)
  + (if app.icon_name ≠ "application-x-executable" then BONUS_SCORE_ICON_NAME else 0)
  + (if ext.activeClasses.any (fun c =>
        containsStr (asciiLower app.name) c || containsStr (asciiLower app.exec) c)
     then OPEN_WINDOW_PENALTY else 0)

/-- Mirrors `create_web_search_entry` of src/search.rs: a colon splits the
query into a candidate custom-engine tag and the literal search term; if the
tag matches a configured entry its URL template is used, otherwise the full
query goes to the default engine. Character positions stand in for Rust's
byte positions (they agree on ASCII input). -/
def create_web_search_entry (ext : ExtEnv) (query : String) (cfgW : WebSearch) : SearchResult :=
  let base : SearchResult :=
    { app :=
        { name := "Search \x27" ++ query ++ "\x27 on the web"
          description := "Open in default web browser"
          path := ""
          exec := "xdg-open \"" ++ cfgW.engine.get_url ++ ext.pctEncode query ++ "\""
          icon_name := "web-browser"
          launch_count := 0
          last_used := some ext.now
          entry_type := EntryType.Application
          score_boost := 0
          keywords := []
          categories := ["Web Search"]
          terminal := false
          actions := [] }
      score := BONUS_SCORE_WEB_SEARCH }
  match query.data.findIdx? (fun c => c == ':') with
  | some colonPos =>
      let tag := String.mk (query.data.take colonPos)
      let term := String.mk (query.data.drop (colonPos + 1))
      match cfgW.pfxList.find? (fun p => p.pfx == tag) with
      | some pfxCfg =>
          { app :=
              { name := "Search \x27" ++ term ++ "\x27 on " ++ tag
                description := "Open in default web browser"
                path := ""
                exec := "xdg-open \"" ++ pfxCfg.url ++ ext.pctEncode term ++ "\""
                icon_name := "web-browser"
                launch_count := 0
                last_used := some ext.now
                entry_type := EntryType.Application
                score_boost := 0
                keywords := []
                categories := ["Web Search"]
                terminal := false
                actions := [] }
            score := BONUS_SCORE_WEB_SEARCH }
      | none => base
  | none => base

/-- Mirrors `create_calc_entry` of src/search.rs; the rink evaluation done
by `handle_calculation` is the external `calcEval` collaborator. -/
def create_calc_entry (ext : ExtEnv) (query : String) : SearchResult :=
  let res := ext.calcEval query
  { app :=
      { name := res
        description := "Copy to clipboard"
        path := ""
        exec := "wl-copy -t text/plain \"" ++ res ++ "\""
        icon_name := "calculator"
        launch_count := 0
        last_used := some ext.now
        entry_type := EntryType.Application
        score_boost := 0
        keywords := []
        categories := ["Calculation"]
        terminal := false
        actions := [] }
    score := BONUS_SCORE_CALC }

/-- Models the two fallback `for` loops of src/search.rs lines 190-216: walk
the strings in order, fuzzy-match each lowercased string against the query,
stop at the first hit (`break`) and return its score. -/
def fallbackLoop (m : String → String → Option Int) (query : String) : List String → Option Int
  | [] => none
  | s :: rest =>
      match m (asciiLower s) query with
      | some score => some score
      | none => fallbackLoop m query rest

/-- Insert an element into a list in front of the first element it compares
`le` to; auxiliary for `insSort`. -/
def insertLe {α : Type} (le : α → α → Bool) (a : α) : List α → List α
  | [] => [a]
  | b :: bs => if le a b then a :: b :: bs else b :: insertLe le a bs

/-- Insertion sort. The Rust code sorts with `sort_unstable_by_key` /
`sort_by`; any correct comparison sort realises those calls, and this one
is chosen because the kernel can evaluate it on concrete inputs. -/
def insSort {α : Type} (le : α → α → Bool) : List α → List α
  | [] => []
  | a :: as => insertLe le a (insSort le as)

/-- Descending-score comparator used by `sort_unstable_by_key(|item| -item.score)`
in src/search.rs. -/
def scoreDescLe (a b : SearchResult) : Bool :=
  decide (b.score ≤ a.score)

/-- Case-insensitive alphabetical comparator used by the browse-mode
`sort_by(... name.to_lowercase().cmp ...)` in src/search.rs. -/
def alphaLe (a b : SearchResult) : Bool :=
  strLeB (asciiLower a.app.name) (asciiLower b.app.name)

/-- Mirrors one iteration of the per-entry loop of `search_applications`
(src/search.rs lines 120-217): the four primary match attempts guarded by
the `added` flag, the additive action sub-entries, and the keyword/category
fallback loops (which in the source run when no primary match succeeded,
pushing once per loop on its first hit; note the keyword loop does not set
`added`). Returns the results this entry pushes, in push order, together
with whether the entry inserted its lowercased name into `seen_names`. -/
def entryStep (ext : ExtEnv) (showActions : Bool) (query qLower : String)
    (app : AppEntry) : List SearchResult × Bool :=
  let bonus := calculate_bonus_score ext app
  let nameLower := asciiLower app.name
  let a1 := eqIgnoreAsciiCase nameLower qLower
  let r1 : List SearchResult := if a1 then [⟨app, BONUS_SCORE_BINARY + bonus⟩] else []
  let kwHit := app.keywords.any (fun k => eqIgnoreAsciiCase k query) && !a1
  let r2 : List SearchResult := if kwHit then [⟨app, BONUS_SCORE_KEYWORD_MATCH + bonus⟩] else []
  let a2 := a1 || kwHit
  let catHit := app.categories.any (fun c => eqIgnoreAsciiCase c query) && !a2
  let r3 : List SearchResult := if catHit then [⟨app, BONUS_SCORE_CATEGORY_MATCH + bonus⟩] else []
  let a3 := a2 || catHit
  let fz : Option Int := ext.matcher nameLower query
  let r4 : List SearchResult :=
    match fz with
    | some s => if !a3 then [⟨app, s + bonus⟩] else []
    | none => []
  let a4 := a3 || (fz.isSome && !a3)
  let ra : List SearchResult :=
    if showActions then
      app.actions.filterMap (fun act =>
        let actionApp : AppEntry :=
          { app with
            name := app.name ++ " - " ++ act.name
            exec := act.exec
            icon_name := act.icon_name.getD app.icon_name }
        let actionName := asciiLower act.name
        if query.data.isEmpty || containsStr actionName qLower ||
            (ext.matcher actionName query).isSome
        then some ⟨actionApp, bonus - 100⟩
        else none)
    else []
  let fbKw : Option Int := if !a4 then fallbackLoop ext.matcher query app.keywords else none
  let rk : List SearchResult :=
    match fbKw with
    | some s => [⟨app, s + bonus⟩]
    | none => []
  let fbCat : Option Int := if !a4 then fallbackLoop ext.matcher query app.categories else none
  let rc : List SearchResult :=
    match fbCat with
    | some s => [⟨app, s + bonus⟩]
    | none => []
  (r1 ++ r2 ++ r3 ++ r4 ++ ra ++ rk ++ rc, a4 || fbKw.isSome || fbCat.isSome)

/-- Mirrors the empty-query (Browse) arm of `search_applications`
(src/search.rs lines 86-114): keep only `.desktop`-sourced entries, score
each, split on presence of a usage-history record, sort the recorded group
by score descending and the rest case-insensitively by name, concatenate
recorded-first, truncate. -/
def search_browse (ext : ExtEnv) (cfg : Config) (cat : List AppEntry) : List SearchResult :=
  let desk := cat.filter (fun app => strEndsWith app.path ".desktop")
  let heat := (desk.filter (fun app => (ext.history app.name).isSome)).map
    (fun app => (⟨app, calculate_bonus_score ext app⟩ : SearchResult))
  let alpha := (desk.filter (fun app => (ext.history app.name).isNone)).map
    (fun app => (⟨app, calculate_bonus_score ext app⟩ : SearchResult))
  ((insSort scoreDescLe heat) ++ (insSort alphaLe alpha)).take cfg.window.max_entries

/-- The truncation idiom of src/search.rs lines 240-242 and 257-259:
`if results.len() > max_results { results.truncate(max_results) }`. -/
def truncStep (maxEntries : Nat) (l : List SearchResult) : List SearchResult :=
  if l.length > maxEntries then l.take maxEntries else l

/-- The per-entry scan of the Fuzzy arm (src/search.rs lines 120-217): the
results pushed by every catalogue entry, in catalogue order. -/
def fuzzyScan (ext : ExtEnv) (showActions : Bool) (query qLower : String)
    (cat : List AppEntry) : List SearchResult :=
  cat.flatMap (fun app => (entryStep ext showActions query qLower app).1)

/-- Whether the scan inserted the lowercased query into `seen_names`
(consulted by the binary-probe guard at src/search.rs line 219): some
catalogue entry matched and its lowercased name equals the lowercased
query. -/
def seenQuery (ext : ExtEnv) (showActions : Bool) (query qLower : String)
    (cat : List AppEntry) : Bool :=
  cat.any (fun app =>
    (entryStep ext showActions query qLower app).2 && (asciiLower app.name == qLower))

/-- The binary-probe step (src/search.rs lines 219-223): when the query
was never inserted into `seen_names`, a successful `/usr/bin` probe appends
its synthetic entry. -/
def probeStep (ext : ExtEnv) (query : String) (seen : Bool)
    (scan : List SearchResult) : List SearchResult :=
  if !seen then
    match ext.binProbe query with
    | some res => scan ++ [res]
    | none => scan
  else scan

/-- The empty-result web-search fallback (src/search.rs lines 225-230). -/
def webFallbackStep (ext : ExtEnv) (query : String) (cfg : Config)
    (r : List SearchResult) : List SearchResult :=
  if r.isEmpty && cfg.web_search.enabled && !should_exclude_web_search query
  then r ++ [create_web_search_entry ext query cfg.web_search] else r

/-- The empty-result calculator fallback (src/search.rs lines 232-237). -/
def calcFallbackStep (ext : ExtEnv) (query : String) (cfg : Config)
    (r : List SearchResult) : List SearchResult :=
  if r.isEmpty && cfg.modes.calculator && (query.data.headD ' ').isDigit
  then r ++ [create_calc_entry ext query] else r

/-- Mirrors the non-empty-query (Fuzzy) arm of `search_applications`
(src/search.rs lines 115-245): the per-entry scan, the binary probe guarded
by `seen_names`, the empty-result web-search and calculator fallbacks, the
descending sort and the truncation. -/
def search_fuzzy (ext : ExtEnv) (query qLower : String) (cfg : Config)
    (cat : List AppEntry) : List SearchResult :=
  truncStep cfg.window.max_entries (insSort scoreDescLe
    (calcFallbackStep ext query cfg (webFallbackStep ext query cfg
      (probeStep ext query (seenQuery ext cfg.window.show_actions query qLower cat)
        (fuzzyScan ext cfg.window.show_actions query qLower cat)))))

/-- The unconditional web-search append step of src/search.rs lines 248-260:
when web search is enabled, the query is non-empty and not excluded, and no
result already carries the "Web Search" category, append the synthetic web
entry, re-sort and re-truncate. -/
def webAppendStep (ext : ExtEnv) (query : String) (cfg : Config)
    (results : List SearchResult) : List SearchResult :=
  if cfg.web_search.enabled && !query.data.isEmpty && !should_exclude_web_search query &&
      !(results.any (fun r => r.app.categories.contains "Web Search"))
  then truncStep cfg.window.max_entries
    (insSort scoreDescLe (results ++ [create_web_search_entry ext query cfg.web_search]))
  else results

/-- Mirrors `search_applications` of src/search.rs: dispatch on the first
character (absent → Browse, present → Fuzzy), then the unconditional
web-search append step. -/
def search_applications (ext : ExtEnv) (query : String) (cfg : Config)
    (cat : List AppEntry) : List SearchResult :=
  webAppendStep ext query cfg
    (if query.data.isEmpty then search_browse ext cfg cat
     else search_fuzzy ext query (asciiLower query) cfg cat)

/-- The matching stage of `search_dmenu` (src/search.rs lines 357-370):
each line, case-folded unless `case_sensitive`, is fuzzy-matched against the
(equally case-folded) query; hits keep the original line with their score. -/
def dmenuMatches (m : String → String → Option Int) (casedQuery : String)
    (caseSensitive : Bool) (lines : List String) : List (String × Int) :=
  lines.filterMap (fun line =>
    let compareLine := if caseSensitive then line else asciiLower line
    (m compareLine casedQuery).map (fun score => (line, score)))

/-- Mirrors `search_dmenu` of src/search.rs: case-fold the query unless
`case_sensitive`, collect fuzzy matches, fall back to the (folded) query
itself when nothing matched and `allow_invalid` is set, sort by score
descending, truncate, and drop the scores. -/
def search_dmenu (m : String → String → Option Int) (query : String)
    (lines : List String) (cfg : Config) : List String :=
  let q := if cfg.dmenu.case_sensitive then query else asciiLower query
  let results := dmenuMatches m q cfg.dmenu.case_sensitive lines
  let results := if results.isEmpty && cfg.dmenu.allow_invalid then results ++ [(q, 0)] else results
  let results := insSort (fun a b => decide (b.2 ≤ a.2)) results
  (results.take cfg.window.max_entries).map Prod.fst

/-- The search pipeline with both web-search sites removed (the
empty-result fallback of src/search.rs lines 225-230 and the append step of
lines 248-260); used to state that excluded queries never take either web
branch. -/
def search_fuzzy_no_web (ext : ExtEnv) (query qLower : String) (cfg : Config)
    (cat : List AppEntry) : List SearchResult :=
  truncStep cfg.window.max_entries (insSort scoreDescLe
    (calcFallbackStep ext query cfg
      (probeStep ext query (seenQuery ext cfg.window.show_actions query qLower cat)
        (fuzzyScan ext cfg.window.show_actions query qLower cat))))

/-- Top-level search with the web-search sites removed. -/
def search_applications_no_web (ext : ExtEnv) (query : String) (cfg : Config)
    (cat : List AppEntry) : List SearchResult :=
  if query.data.isEmpty then search_browse ext cfg cat
  else search_fuzzy_no_web ext query (asciiLower query) cfg cat

/-- Helper: is the first char list a (not necessarily contiguous)
subsequence of the second. -/
def isSubseqB : List Char → List Char → Bool
  | [], _ => true
  | _ :: _, [] => false
  | a :: as, b :: bs => if a == b then isSubseqB as bs else isSubseqB (a :: as) bs

/-- Modelled from the spec glossary ("Fuzzy match: subsequence-based
approximate string match returning a quality score"): a concrete stand-in
for the external SkimMatcherV2 collaborator, used only to build concrete
witnesses and counterexamples. It reports a hit iff the query is a
subsequence of the haystack, scored proportionally to the query length. -/
def specFuzzy (hay needle : String) : Option Int :=
  if isSubseqB needle.data hay.data then some (16 * (needle.data.length : Int)) else none

/-- A neutral external environment for concrete runs: the subsequence
matcher stands in for SkimMatcherV2, the binary probe misses, the heatmap
is empty, there are no open windows, the calculator evaluates to "0" and
percent encoding is the identity (the concrete strings involved need no
escaping). -/
def extNil : ExtEnv :=
  { matcher := specFuzzy
    binProbe := fun _ => none
    history := fun _ => none
    now := 1000
    activeClasses := []
    calcEval := fun _ => "0"
    pctEncode := fun s => s }

/-- A minimal installed-application catalogue entry, as `parse_desktop_entry`
of src/launcher.rs produces it for a descriptor with only a `Name`. -/
def mkApp (name : String) : AppEntry :=
  { name := name
    description := ""
    path := "/usr/share/applications/a.desktop"
    exec := name
    icon_name := "application-x-executable"
    launch_count := 0
    last_used := none
    entry_type := EntryType.Application
    score_boost := 0
    keywords := []
    categories := []
    terminal := false
    actions := [] }

/-- A baseline configuration: 50 entries, no actions, dmenu case-folding
with free-form entry allowed, web search and calculator disabled. -/
def cfg0 : Config :=
  { window := { max_entries := 50, show_actions := false }
    dmenu := { allow_invalid := true, case_sensitive := false }
    web_search :=
      { enabled := false
        engine := SearchEngine.Preset PresetEngine.DuckDuckGo
        pfxList := [] }
    modes := { calculator := false } }

/-- Like `cfg0` but with web search enabled and the given entry limit. -/
def cfgWeb (m : Nat) : Config :=
  { cfg0 with
    window := { max_entries := m, show_actions := false }
    web_search :=
      { enabled := true
        engine := SearchEngine.Preset PresetEngine.DuckDuckGo
        pfxList := [] } }

/-- Environment for the C3 scenario: the heatmap records heavy recent use
of "Fire Fox Nightly" only. -/
def extC3 : ExtEnv :=
  { extNil with
    history := fun n =>
      if n == "Fire Fox Nightly" then some { last_used := 1000, use_count := 100 } else none }

/-- The exactly-matching entry of the C3 scenario (never used, generic
icon). -/
def appExact : AppEntry := mkApp "Firefox"

/-- The fuzzy-only competitor of the C3 scenario (recently used, own
icon). -/
def appFuzzy : AppEntry := { mkApp "Fire Fox Nightly" with icon_name := "firefox" }

/-- The C4 scenario entry: no primary match for query "foo", but both a
keyword and a category that fuzzy-match it. -/
def appTwoFallbacks : AppEntry :=
  { mkApp "Zed" with keywords := ["foobar"], categories := ["fooqux"] }

/-- Environment for the C10 scenario: a heatmap record whose `last_used`
stamp (a trusted JSON field) lies far in the future of `now = 1000`. -/
def extFuture : ExtEnv :=
  { extNil with history := fun _ => some { last_used := 1000000000000, use_count := 1 } }

/-- Environment for the C9 witness: one recorded entry, one open window. -/
def extC9 : ExtEnv :=
  { extNil with
    now := 2000
    history := fun n => if n == "Wx" then some { last_used := 1500, use_count := 4 } else none
    activeClasses := ["wx"] }

/-- The application entry of the C9 witness. -/
def appC9 : AppEntry := mkApp "Wx"


/-- Inserting with `insertLe` permutes the element onto the list. -/
theorem insertLe_perm {α : Type} (le : α → α → Bool) (a : α) :
    ∀ l : List α, List.Perm (insertLe le a l) (a :: l)
  | [] => by simp [insertLe]
  | b :: bs => by
      by_cases h : le a b = true
      · simp [insertLe, h]
      · have ih := insertLe_perm le a bs
        simp only [insertLe, if_neg h]
        exact List.Perm.trans (ih.cons b) (List.Perm.swap a b bs)

/-- Insertion sort permutes its input. -/
theorem insSort_perm {α : Type} (le : α → α → Bool) :
    ∀ l : List α, List.Perm (insSort le l) l
  | [] => by simp [insSort]
  | a :: as => by
      have ih := insSort_perm le as
      exact List.Perm.trans (insertLe_perm le a (insSort le as)) (ih.cons a)

/-- Membership is preserved by insertion sort. -/
theorem mem_insSort {α : Type} (le : α → α → Bool) (l : List α) (x : α) :
    x ∈ insSort le l ↔ x ∈ l :=
  (insSort_perm le l).mem_iff

/-- Insertion sort preserves length. -/
theorem length_insSort {α : Type} (le : α → α → Bool) (l : List α) :
    (insSort le l).length = l.length :=
  (insSort_perm le l).length_eq

/-- Membership after `insertLe`. -/
theorem mem_insertLe {α : Type} (le : α → α → Bool) (a : α) (l : List α) (x : α) :
    x ∈ insertLe le a l ↔ x = a ∨ x ∈ l := by
  rw [(insertLe_perm le a l).mem_iff]
  simp

/-- Inserting into a sorted list keeps it sorted, given a total transitive
comparator. -/
theorem pairwise_insertLe {α : Type} {le : α → α → Bool}
    (htot : ∀ x y, (le x y || le y x) = true)
    (htrans : ∀ x y z, le x y = true → le y z = true → le x z = true)
    (a : α) : ∀ {l : List α}, l.Pairwise (fun x y => le x y = true) →
    (insertLe le a l).Pairwise (fun x y => le x y = true)
  | [], _ => by simp [insertLe]
  | b :: bs, h => by
      rcases List.pairwise_cons.mp h with ⟨hb, hbs⟩
      by_cases hab : le a b = true
      · simp only [insertLe, if_pos hab]
        refine List.pairwise_cons.mpr ⟨?_, h⟩
        intro y hy
        rcases List.mem_cons.mp hy with rfl | hy
        · exact hab
        · exact htrans a b y hab (hb y hy)
      · simp only [insertLe, if_neg hab]
        refine List.pairwise_cons.mpr ⟨?_, pairwise_insertLe htot htrans a hbs⟩
        intro y hy
        rcases (mem_insertLe le a bs y).mp hy with hya | hy
        · subst hya
          have htot' := htot y b
          cases hba : le b y
          · rw [hba, Bool.or_false] at htot'
            exact absurd htot' hab
          · rfl
        · exact hb y hy

/-- Insertion sort sorts, given a total transitive comparator. -/
theorem pairwise_insSort {α : Type} {le : α → α → Bool}
    (htot : ∀ x y, (le x y || le y x) = true)
    (htrans : ∀ x y z, le x y = true → le y z = true → le x z = true) :
    ∀ l : List α, (insSort le l).Pairwise (fun x y => le x y = true)
  | [] => by simp [insSort]
  | a :: as => pairwise_insertLe htot htrans a (pairwise_insSort htot htrans as)

/-- The descending-score comparator is total. -/
theorem scoreDescLe_total (a b : SearchResult) : (scoreDescLe a b || scoreDescLe b a) = true := by
  simp [scoreDescLe]
  omega

/-- The descending-score comparator is transitive. -/
theorem scoreDescLe_trans (a b c : SearchResult) :
    scoreDescLe a b = true → scoreDescLe b c = true → scoreDescLe a c = true := by
  simp [scoreDescLe]
  omega

/-- Transitivity of the lexicographic order on char lists. -/
theorem listLexLt_trans :
    ∀ {as bs cs : List Char}, listLexLt as bs = true → listLexLt bs cs = true →
      listLexLt as cs = true
  | [], [], _, h1, _ => by simp [listLexLt] at h1
  | [], _ :: _, [], _, h2 => by simp [listLexLt] at h2
  | [], _ :: _, _ :: _, _, _ => by simp [listLexLt]
  | _ :: _, [], _, h1, _ => by simp [listLexLt] at h1
  | _ :: _, _ :: _, [], _, h2 => by simp [listLexLt] at h2
  | a :: as, b :: bs, c :: cs, h1, h2 => by
      simp only [listLexLt, Bool.or_eq_true, Bool.and_eq_true, decide_eq_true_eq,
        beq_iff_eq] at h1 h2 ⊢
      rcases h1 with h1 | ⟨rfl, h1⟩
      · rcases h2 with h2 | ⟨rfl, h2⟩
        · exact Or.inl (lt_trans h1 h2)
        · exact Or.inl h1
      · rcases h2 with h2 | ⟨rfl, h2⟩
        · exact Or.inl h2
        · exact Or.inr ⟨rfl, listLexLt_trans h1 h2⟩

/-- Asymmetry of the lexicographic order on char lists. -/
theorem listLexLt_asymm :
    ∀ {as bs : List Char}, listLexLt as bs = true → listLexLt bs as = true → False
  | [], [], h1, _ => by simp [listLexLt] at h1
  | [], _ :: _, _, h2 => by simp [listLexLt] at h2
  | _ :: _, [], h1, _ => by simp [listLexLt] at h1
  | a :: as, b :: bs, h1, h2 => by
      simp only [listLexLt, Bool.or_eq_true, Bool.and_eq_true, decide_eq_true_eq,
        beq_iff_eq] at h1 h2
      rcases h1 with h1 | ⟨rfl, h1⟩
      · rcases h2 with h2 | ⟨heq, h2⟩
        · exact absurd h2 (not_lt_of_gt h1)
        · subst heq
          exact absurd h1 (lt_irrefl _)
      · rcases h2 with h2 | ⟨heq, h2⟩
        · exact absurd h2 (lt_irrefl _)
        · exact listLexLt_asymm h1 h2

/-- Trichotomy of the lexicographic order on char lists. -/
theorem listLexLt_trichotomy :
    ∀ as bs : List Char, listLexLt as bs = true ∨ listLexLt bs as = true ∨ as = bs
  | [], [] => Or.inr (Or.inr rfl)
  | [], _ :: _ => Or.inl (by simp [listLexLt])
  | _ :: _, [] => Or.inr (Or.inl (by simp [listLexLt]))
  | a :: as, b :: bs => by
      rcases lt_trichotomy a b with hab | hab | hab
      · exact Or.inl (by simp [listLexLt, hab])
      · subst hab
        rcases listLexLt_trichotomy as bs with h | h | h
        · exact Or.inl (by simp [listLexLt, h])
        · exact Or.inr (Or.inl (by simp [listLexLt, h]))
        · exact Or.inr (Or.inr (by rw [h]))
      · exact Or.inr (Or.inl (by simp [listLexLt, hab]))

/-- The case-insensitive alphabetical comparator is total. -/
theorem alphaLe_total (a b : SearchResult) : (alphaLe a b || alphaLe b a) = true := by
  simp only [alphaLe, strLeB, strLtB, Bool.or_eq_true, Bool.not_eq_true']
  by_cases h1 : listLexLt (asciiLower b.app.name).data (asciiLower a.app.name).data = true
  · by_cases h2 : listLexLt (asciiLower a.app.name).data (asciiLower b.app.name).data = true
    · exact absurd (listLexLt_asymm h1 h2) (fun f => f)
    · exact Or.inr (Bool.not_eq_true _ ▸ eq_false_of_ne_true h2)
  · exact Or.inl (eq_false_of_ne_true h1)

/-- The case-insensitive alphabetical comparator is transitive. -/
theorem alphaLe_trans (a b c : SearchResult) :
    alphaLe a b = true → alphaLe b c = true → alphaLe a c = true := by
  simp only [alphaLe, strLeB, strLtB, Bool.not_eq_true']
  intro h1 h2
  by_cases hca : listLexLt (asciiLower c.app.name).data (asciiLower a.app.name).data = true
  · exfalso
    rcases listLexLt_trichotomy (asciiLower a.app.name).data (asciiLower b.app.name).data
      with hab | hab | hab
    · have : listLexLt (asciiLower c.app.name).data (asciiLower b.app.name).data = true :=
        listLexLt_trans hca hab
      rw [this] at h2; exact absurd h2 (by simp)
    · rw [hab] at h1; exact absurd h1 (by simp)
    · rw [hab] at hca
      rw [hca] at h2; exact absurd h2 (by simp)
  · exact eq_false_of_ne_true hca

/-- The truncation idiom always leaves at most `maxEntries` results. -/
theorem truncStep_length_le (maxEntries : Nat) (l : List SearchResult) :
    (truncStep maxEntries l).length ≤ maxEntries := by
  unfold truncStep
  by_cases h : l.length > maxEntries
  · simp [h]
  · simp only [if_neg h]
    omega

/-- The Browse arm respects the entry limit. -/
theorem search_browse_length_le (ext : ExtEnv) (cfg : Config) (cat : List AppEntry) :
    (search_browse ext cfg cat).length ≤ cfg.window.max_entries := by
  simp only [search_browse, List.length_take]
  omega

/-- The Fuzzy arm respects the entry limit. -/
theorem search_fuzzy_length_le (ext : ExtEnv) (query qLower : String) (cfg : Config)
    (cat : List AppEntry) :
    (search_fuzzy ext query qLower cfg cat).length ≤ cfg.window.max_entries := by
  simp only [search_fuzzy]
  exact truncStep_length_le _ _

/-- The web-append step keeps the entry limit once its input already
respects it. -/
theorem webAppendStep_length_le (ext : ExtEnv) (query : String) (cfg : Config)
    (results : List SearchResult) (h : results.length ≤ cfg.window.max_entries) :
    (webAppendStep ext query cfg results).length ≤ cfg.window.max_entries := by
  unfold webAppendStep
  by_cases hc : (cfg.web_search.enabled && !query.data.isEmpty &&
      !should_exclude_web_search query &&
      !(results.any (fun r => r.app.categories.contains "Web Search"))) = true
  · simp only [if_pos hc]
    exact truncStep_length_le _ _
  · simp only [if_neg hc]
    exact h

/-- C1: for every query, configuration, catalogue and external environment,
both `search_applications` and `search_dmenu` return at most
`window.max_entries` results: each arm truncates to the bound, and the
unconditional web-search append re-truncates after its insertion. -/
theorem C1_results_bounded (ext : ExtEnv) (query : String) (cfg : Config)
    (cat : List AppEntry) (m : String → String → Option Int) (lines : List String) :
    (search_applications ext query cfg cat).length ≤ cfg.window.max_entries ∧
    (search_dmenu m query lines cfg).length ≤ cfg.window.max_entries := by
  constructor
  · unfold search_applications
    apply webAppendStep_length_le
    by_cases h : query.data.isEmpty = true
    · simp only [if_pos h]
      exact search_browse_length_le ext cfg cat
    · simp only [if_neg h]
      exact search_fuzzy_length_le ext query (asciiLower query) cfg cat
  · simp only [search_dmenu, List.length_map, List.length_take]
    omega

/-- With an empty query, `search_applications` is exactly the Browse arm:
the web-append step requires a non-empty query. -/
theorem search_applications_empty_query (ext : ExtEnv) (cfg : Config) (cat : List AppEntry) :
    search_applications ext "" cfg cat = search_browse ext cfg cat := by
  have h : ("" : String).data.isEmpty = true := rfl
  simp [search_applications, webAppendStep, h]

/-- Elements of the recorded ("heat") browse group come from `.desktop`
catalogue entries that have a usage record. -/
theorem browse_heat_mem (ext : ExtEnv) (cat : List AppEntry) (r : SearchResult)
    (hr : r ∈ ((cat.filter (fun app => strEndsWith app.path ".desktop")).filter
        (fun app => (ext.history app.name).isSome)).map
      (fun app => (⟨app, calculate_bonus_score ext app⟩ : SearchResult))) :
    strEndsWith r.app.path ".desktop" = true ∧ (ext.history r.app.name).isSome = true := by
  rcases List.mem_map.mp hr with ⟨app, happ, rfl⟩
  rcases List.mem_filter.mp happ with ⟨happ', hsome⟩
  rcases List.mem_filter.mp happ' with ⟨_, hdesk⟩
  exact ⟨hdesk, hsome⟩

/-- Elements of the unrecorded ("alphabetical") browse group come from
`.desktop` catalogue entries without a usage record. -/
theorem browse_alpha_mem (ext : ExtEnv) (cat : List AppEntry) (r : SearchResult)
    (hr : r ∈ ((cat.filter (fun app => strEndsWith app.path ".desktop")).filter
        (fun app => (ext.history app.name).isNone)).map
      (fun app => (⟨app, calculate_bonus_score ext app⟩ : SearchResult))) :
    strEndsWith r.app.path ".desktop" = true ∧ (ext.history r.app.name).isSome = false := by
  rcases List.mem_map.mp hr with ⟨app, happ, rfl⟩
  rcases List.mem_filter.mp happ with ⟨happ', hnone⟩
  rcases List.mem_filter.mp happ' with ⟨_, hdesk⟩
  refine ⟨hdesk, ?_⟩
  rw [Option.isNone_iff_eq_none] at hnone
  simp [hnone]

/-- C2: for the empty query, every returned result stems from a `.desktop`
descriptor; recorded (usage-history) results precede unrecorded ones; the
recorded group is sorted by score descending and the unrecorded group is
sorted alphabetically case-insensitively by name. -/
theorem C2_browse_order (ext : ExtEnv) (cfg : Config) (cat : List AppEntry) :
    ((search_applications ext "" cfg cat).all
      (fun r => strEndsWith r.app.path ".desktop") = true) ∧
    (search_applications ext "" cfg cat).Pairwise (fun a b =>
      ((ext.history b.app.name).isSome = true → (ext.history a.app.name).isSome = true) ∧
      ((ext.history a.app.name).isSome = true → (ext.history b.app.name).isSome = true →
        b.score ≤ a.score) ∧
      ((ext.history a.app.name).isSome = false → (ext.history b.app.name).isSome = false →
        alphaLe a b = true)) := by
  rw [search_applications_empty_query]
  simp only [search_browse]
  constructor
  · rw [List.all_eq_true]
    intro r hr
    have hr' := List.Sublist.mem hr (List.take_sublist _ _)
    rcases List.mem_append.mp hr' with hh | ha
    · exact (browse_heat_mem ext cat r ((mem_insSort _ _ r).mp hh)).1
    · exact (browse_alpha_mem ext cat r ((mem_insSort _ _ r).mp ha)).1
  · apply List.Pairwise.sublist (List.take_sublist _ _)
    rw [List.pairwise_append]
    refine ⟨?_, ?_, ?_⟩
    · refine List.Pairwise.imp_of_mem ?_
        (pairwise_insSort scoreDescLe_total scoreDescLe_trans _)
      intro a b ha hb hR
      have ha' := (browse_heat_mem ext cat a ((mem_insSort _ _ a).mp ha)).2
      have hb' := (browse_heat_mem ext cat b ((mem_insSort _ _ b).mp hb)).2
      simp only [scoreDescLe, decide_eq_true_eq] at hR
      exact ⟨fun _ => ha', fun _ _ => hR, fun hfa _ => absurd ha' (by rw [hfa]; simp)⟩
    · refine List.Pairwise.imp_of_mem ?_
        (pairwise_insSort alphaLe_total alphaLe_trans _)
      intro a b ha hb hR
      have ha' := (browse_alpha_mem ext cat a ((mem_insSort _ _ a).mp ha)).2
      have hb' := (browse_alpha_mem ext cat b ((mem_insSort _ _ b).mp hb)).2
      refine ⟨fun hsb => absurd hsb (by rw [hb']; simp), ?_, fun _ _ => hR⟩
      intro hsa
      exact absurd hsa (by rw [ha']; simp)
    · intro a ha b hb
      have ha' := (browse_heat_mem ext cat a ((mem_insSort _ _ a).mp ha)).2
      have hb' := (browse_alpha_mem ext cat b ((mem_insSort _ _ b).mp hb)).2
      refine ⟨fun hsb => absurd hsb (by rw [hb']; simp), ?_, ?_⟩
      · intro _ hsb
        exact absurd hsb (by rw [hb']; simp)
      · intro hfa _
        exact absurd ha' (by rw [hfa]; simp)

/-- On an excluded query the Fuzzy arm never takes its web-search push. -/
theorem search_fuzzy_excluded (ext : ExtEnv) (query qLower : String) (cfg : Config)
    (cat : List AppEntry) (h : should_exclude_web_search query = true) :
    search_fuzzy ext query qLower cfg cat = search_fuzzy_no_web ext query qLower cfg cat := by
  simp [search_fuzzy, search_fuzzy_no_web, webFallbackStep, h]

/-- C7: a query equal to a reserved control token (case-insensitively)
never produces a web-search synthetic entry: the whole search coincides
with the pipeline from which both web-search sites (the empty-result
fallback and the unconditional append step) are removed. -/
theorem C7_excluded_token_no_web_entry (ext : ExtEnv) (query : String) (cfg : Config)
    (cat : List AppEntry) (h : should_exclude_web_search query = true) :
    search_applications ext query cfg cat = search_applications_no_web ext query cfg cat := by
  unfold search_applications search_applications_no_web webAppendStep
  rw [h]
  by_cases hq : query.data.isEmpty = true
  · simp [hq]
  · simp only [Bool.not_true, Bool.and_false, Bool.false_and, Bool.and_false, if_neg,
      Bool.false_eq_true, not_false_eq_true, hq, if_neg]
    simp [hq, search_fuzzy_excluded ext query (asciiLower query) cfg cat h]

/-- Witness for C7 at the reserved token "__refresh__". -/
theorem C7_excluded_token_no_web_entry_witness :
    should_exclude_web_search "__refresh__" = true ∧
    search_applications extNil "__refresh__" (cfgWeb 50) [] =
      search_applications_no_web extNil "__refresh__" (cfgWeb 50) [] :=
  ⟨by decide, C7_excluded_token_no_web_entry extNil "__refresh__" (cfgWeb 50) [] (by decide)⟩

/-- C8 counterexample: with case folding on (`case_sensitive = false`),
free-form entry allowed and no matching line, the dmenu filter returns the
LOWERCASED query, not the raw query: query "AP" yields ["ap"]. -/
theorem C8_counterexample :
    search_dmenu (fun _ _ => none) "AP" [] cfg0 = ["ap"] ∧ ("ap" : String) ≠ "AP" := by
  constructor
  · decide
  · decide

/-- C8 amended: when no line matches and `allow_invalid` is set, the sole
result is the CASE-FOLDED query (the raw query only when `case_sensitive`),
and only provided `max_entries ≥ 1` (the final truncation applies to it
too). -/
theorem C8_amended_invalid_entry (m : String → String → Option Int) (query : String)
    (lines : List String) (cfg : Config)
    (hinv : cfg.dmenu.allow_invalid = true)
    (hmax : 1 ≤ cfg.window.max_entries)
    (hnone : dmenuMatches m (if cfg.dmenu.case_sensitive then query else asciiLower query)
        cfg.dmenu.case_sensitive lines = []) :
    search_dmenu m query lines cfg =
      [if cfg.dmenu.case_sensitive then query else asciiLower query] := by
  simp only [search_dmenu, hnone, hinv, List.isEmpty_nil, Bool.and_self, if_pos,
    List.nil_append]
  simp only [insSort, insertLe]
  cases hm : cfg.window.max_entries with
  | zero => omega
  | succ n => simp [List.take]

/-- Witness for the C8 amended statement: query "ap", no lines,
case-insensitive free-form entry. -/
theorem C8_amended_invalid_entry_witness :
    search_dmenu (fun _ _ => none) "ap" [] cfg0 =
      [if cfg0.dmenu.case_sensitive then "ap" else asciiLower "ap"] :=
  C8_amended_invalid_entry (fun _ _ => none) "ap" [] cfg0 (by decide) (by decide) (by decide)

/-- The fallback loop is first-hit-wins: it returns the first fuzzy match
over the list, i.e. `findSome?` of the matcher over lowercased strings. -/
theorem fallbackLoop_eq_findSome (m : String → String → Option Int) (query : String) :
    ∀ l : List String, fallbackLoop m query l = l.findSome? (fun s => m (asciiLower s) query)
  | [] => rfl
  | s :: rest => by
      rw [List.findSome?_cons]
      cases h : m (asciiLower s) query with
      | none => simpa [fallbackLoop, h] using fallbackLoop_eq_findSome m query rest
      | some v => simp [fallbackLoop, h]

/-- C4 counterexample: entry "Zed" (keywords ["foobar"], categories
["fooqux"]) has no primary match for query "foo", yet contributes TWO
fallback results — the keyword hit does not preclude the category hit,
because the keyword loop never sets the `added` flag. -/
theorem C4_counterexample :
    (search_applications extNil "foo" cfg0 [appTwoFallbacks]).map
      (fun r => (r.app.name, r.score)) = [("Zed", 48), ("Zed", 48)] := by
  decide

/-- C4 amended: when no primary match succeeds (and actions are off), the
entry contributes exactly the first keyword fuzzy hit AND, independently,
the first category fuzzy hit — one result per fallback list, but a keyword
hit does not preclude the category result. -/
theorem C4_amended_fallback_results (ext : ExtEnv) (query qLower : String) (app : AppEntry)
    (h1 : eqIgnoreAsciiCase (asciiLower app.name) qLower = false)
    (h2 : app.keywords.any (fun k => eqIgnoreAsciiCase k query) = false)
    (h3 : app.categories.any (fun c => eqIgnoreAsciiCase c query) = false)
    (h4 : ext.matcher (asciiLower app.name) query = none) :
    (entryStep ext false query qLower app).1 =
      (match app.keywords.findSome? (fun k => ext.matcher (asciiLower k) query) with
       | some s => [⟨app, s + calculate_bonus_score ext app⟩]
       | none => ([] : List SearchResult)) ++
      (match app.categories.findSome? (fun c => ext.matcher (asciiLower c) query) with
       | some s => [⟨app, s + calculate_bonus_score ext app⟩]
       | none => ([] : List SearchResult)) := by
  simp only [entryStep, h1, h2, h3, h4, Bool.false_and, Bool.or_false, Bool.false_or,
    Bool.not_false, Bool.true_and, if_false, Option.isSome_none, if_true,
    fallbackLoop_eq_findSome]
  cases hk : app.keywords.findSome? (fun k => ext.matcher (asciiLower k) query) <;>
    cases hc : app.categories.findSome? (fun c => ext.matcher (asciiLower c) query) <;>
      simp

/-- Witness for the C4 amended statement at the "Zed" entry and query
"foo". -/
theorem C4_amended_fallback_results_witness :
    (entryStep extNil false "foo" (asciiLower "foo") appTwoFallbacks).1 =
      (match appTwoFallbacks.keywords.findSome?
          (fun k => extNil.matcher (asciiLower k) "foo") with
       | some s => [⟨appTwoFallbacks, s + calculate_bonus_score extNil appTwoFallbacks⟩]
       | none => ([] : List SearchResult)) ++
      (match appTwoFallbacks.categories.findSome?
          (fun c => extNil.matcher (asciiLower c) "foo") with
       | some s => [⟨appTwoFallbacks, s + calculate_bonus_score extNil appTwoFallbacks⟩]
       | none => ([] : List SearchResult)) :=
  C4_amended_fallback_results extNil "foo" (asciiLower "foo") appTwoFallbacks
    (by decide) (by decide) (by decide) (by decide)

/-- C5 counterexample: the query "~" is NOT handled by a path-listing mode.
Against an empty catalogue (web search and calculator off) it returns no
results at all — in particular no synthetic ".." entry and no home-directory
contents, although a parent of the home directory exists. -/
theorem C5_counterexample :
    search_applications extNil "~" cfg0 [] = [] := by
  decide

/-- C5 amended: there is no Path mode. `search_applications` dispatches
only on emptiness of the query; a query whose first character is `~`, `$`
or `/` is processed by the ordinary Fuzzy arm followed by the web-append
step, exactly like any other non-empty query. -/
theorem C5_amended_no_path_mode (ext : ExtEnv) (query : String) (cfg : Config)
    (cat : List AppEntry)
    (h : query.data.head? = some '~' ∨ query.data.head? = some '$' ∨
      query.data.head? = some '/') :
    search_applications ext query cfg cat =
      webAppendStep ext query cfg (search_fuzzy ext query (asciiLower query) cfg cat) := by
  have hne : query.data.isEmpty = false := by
    cases hq : query.data with
    | nil => rcases h with h | h | h <;> (rw [hq] at h; exact absurd h (by simp))
    | cons c rest => simp
  unfold search_applications
  rw [hne]
  simp

/-- Witness for the C5 amended statement at the query "~". -/
theorem C5_amended_no_path_mode_witness :
    search_applications extNil "~" cfg0 [] =
      webAppendStep extNil "~" cfg0 (search_fuzzy extNil "~" (asciiLower "~") cfg0 []) :=
  C5_amended_no_path_mode extNil "~" cfg0 [] (by decide)

/-- Both branches of `create_web_search_entry` produce the category list
["Web Search"]. -/
theorem webEntry_categories (ext : ExtEnv) (query : String) (cfgW : WebSearch) :
    (create_web_search_entry ext query cfgW).app.categories = ["Web Search"] := by
  unfold create_web_search_entry
  cases hidx : query.data.findIdx? (fun c => c == ':') with
  | none => rfl
  | some pos =>
      simp only
      cases hfind : cfgW.pfxList.find? (fun p => p.pfx == String.mk (query.data.take pos)) with
      | none => simp [hfind]
      | some pc => simp [hfind]

/-- Both branches of `create_web_search_entry` score `BONUS_SCORE_WEB_SEARCH`. -/
theorem webEntry_score (ext : ExtEnv) (query : String) (cfgW : WebSearch) :
    (create_web_search_entry ext query cfgW).score = BONUS_SCORE_WEB_SEARCH := by
  unfold create_web_search_entry
  cases hidx : query.data.findIdx? (fun c => c == ':') with
  | none => rfl
  | some pos =>
      simp only
      cases hfind : cfgW.pfxList.find? (fun p => p.pfx == String.mk (query.data.take pos)) with
      | none => simp [hfind]
      | some pc => simp [hfind]

/-- When every catalogue entry contributes nothing, the scan is empty and
the lowercased query was never inserted into `seen_names`. -/
theorem fuzzyScan_nil_of_no_match (ext : ExtEnv) (sa : Bool) (query qLower : String) :
    ∀ cat : List AppEntry,
    (∀ app ∈ cat, entryStep ext sa query qLower app = ([], false)) →
    fuzzyScan ext sa query qLower cat = [] ∧ seenQuery ext sa query qLower cat = false
  | [], _ => ⟨rfl, rfl⟩
  | app :: rest, h => by
      have happ := h app (List.mem_cons_self app rest)
      have ih := fuzzyScan_nil_of_no_match ext sa query qLower rest
        (fun a ha => h a (List.mem_cons_of_mem app ha))
      constructor
      · simp only [fuzzyScan, List.flatMap_cons, happ]
        simpa [fuzzyScan] using ih.1
      · simp only [seenQuery, List.any_cons, happ]
        simpa [seenQuery] using ih.2

/-- C6 amended: for a non-empty, non-excluded query matching no catalogue
entry, with the binary probe missing and web search enabled, the returned
list is exactly the one synthetic web-search result with its negative
score — PROVIDED `max_entries ≥ 1`; the final truncation can still drop
it (see the counterexample at `max_entries = 0`). -/
theorem C6_amended_web_fallback (ext : ExtEnv) (query : String) (cfg : Config)
    (cat : List AppEntry)
    (hne : query.data.isEmpty = false)
    (hex : should_exclude_web_search query = false)
    (hweb : cfg.web_search.enabled = true)
    (hnomatch : ∀ app ∈ cat,
      entryStep ext cfg.window.show_actions query (asciiLower query) app = ([], false))
    (hbin : ext.binProbe query = none)
    (hmax : 1 ≤ cfg.window.max_entries) :
    search_applications ext query cfg cat =
      [create_web_search_entry ext query cfg.web_search] ∧
    (create_web_search_entry ext query cfg.web_search).score = BONUS_SCORE_WEB_SEARCH ∧
    BONUS_SCORE_WEB_SEARCH < 0 := by
  have hscan := fuzzyScan_nil_of_no_match ext cfg.window.show_actions query
    (asciiLower query) cat hnomatch
  have hsf : search_fuzzy ext query (asciiLower query) cfg cat =
      [create_web_search_entry ext query cfg.web_search] := by
    simp only [search_fuzzy, probeStep, webFallbackStep, calcFallbackStep, hscan.1, hscan.2,
      hbin, hex, hweb, Bool.not_false, List.isEmpty_nil, Bool.true_and, Bool.and_true,
      if_true, List.nil_append]
    simp only [List.isEmpty_cons, Bool.false_and, if_false, insSort, insertLe, truncStep]
    cases hm : cfg.window.max_entries with
    | zero => omega
    | succ n => simp [hm]
  unfold search_applications webAppendStep
  have hcont : (["Web Search"] : List String).contains "Web Search" = true := by decide
  simp only [hne, hsf, hex, hweb, Bool.not_false, Bool.false_eq_true, if_false,
    List.any_cons, List.any_nil, webEntry_categories, hcont, Bool.or_false, Bool.true_and,
    Bool.not_true, Bool.and_false, Bool.false_and]
  exact ⟨trivial, webEntry_score ext query cfg.web_search, by decide⟩

/-- Witness for the C6 amended statement: query "xyz-nonexistent-app",
empty catalogue, web search on, limit 50. -/
theorem C6_amended_web_fallback_witness :
    search_applications extNil "xyz-nonexistent-app" (cfgWeb 50) [] =
      [create_web_search_entry extNil "xyz-nonexistent-app" (cfgWeb 50).web_search] ∧
    (create_web_search_entry extNil "xyz-nonexistent-app" (cfgWeb 50).web_search).score =
      BONUS_SCORE_WEB_SEARCH ∧
    BONUS_SCORE_WEB_SEARCH < 0 :=
  C6_amended_web_fallback extNil "xyz-nonexistent-app" (cfgWeb 50) [] (by decide) (by decide)
    (by decide) (by intro app happ; exact absurd happ (List.not_mem_nil app)) (by decide)
    (by decide)

/-- C6 counterexample: same scenario but `max_entries = 0` — the final
truncation removes the synthetic entry, so the returned list contains NO
web-search result instead of exactly one. -/
theorem C6_counterexample :
    search_applications extNil "xyz-nonexistent-app" (cfgWeb 0) [] = [] := by
  decide

/-- Under the no-future-timestamp precondition the wrapping subtraction
computes the true elapsed seconds. -/
theorem toI64_wrapSub64_of_le (now last : Nat) (hle : last ≤ now) (hlt : now < 2 ^ 63) :
    toI64 (wrapSub64 now last) = (now : Int) - (last : Int) := by
  unfold toI64 wrapSub64 u64Mod
  have h1 : now % 2 ^ 64 = now := Nat.mod_eq_of_lt (by omega)
  have h2 : last % 2 ^ 64 = last := Nat.mod_eq_of_lt (by omega)
  rw [h1, h2]
  have h3 : (now + (2 ^ 64 - last)) % 2 ^ 64 = now - last := by omega
  rw [h3]
  have h4 : (now - last) % 2 ^ 64 = now - last := Nat.mod_eq_of_lt (by omega)
  rw [h4]
  rw [if_pos (by omega : now - last < 2 ^ 63)]
  omega

/-- C9: under the precondition that any usage record's `last_used` stamp is
not in the future (and the clock fits a signed 64-bit count), the bonus
score equals the specification formula: `10000 - elapsed/10 + min(20·uses,
200)` for recorded entries, `min(20·launches, 200)` otherwise, plus the
icon bonus exactly when the icon is not the generic fallback, plus the
open-window penalty exactly when an active class occurs in the lowercased
name or exec (an empty probe result gives no penalty). -/
theorem C9_bonus_formula (ext : ExtEnv) (app : AppEntry)
    (hle : ∀ entry, ext.history app.name = some entry → entry.last_used ≤ ext.now)
    (hnow : ext.now < 2 ^ 63) :
    calculate_bonus_score ext app = spec_bonus_formula ext app := by
  unfold calculate_bonus_score spec_bonus_formula
  cases hh : ext.history app.name with
  | none =>
      by_cases hicon : app.icon_name ≠ "application-x-executable" <;>
        by_cases hwin : ext.activeClasses.any (fun c =>
            containsStr (asciiLower app.name) c || containsStr (asciiLower app.exec) c) = true <;>
          simp [hh, hicon, hwin]
  | some entry =>
      have hrw := toI64_wrapSub64_of_le ext.now entry.last_used (hle entry hh) hnow
      by_cases hicon : app.icon_name ≠ "application-x-executable" <;>
        by_cases hwin : ext.activeClasses.any (fun c =>
            containsStr (asciiLower app.name) c || containsStr (asciiLower app.exec) c) = true <;>
          simp [hh, hrw, hicon, hwin]

/-- Witness for C9: entry "Wx" with a record {last_used 1500, count 4} at
clock 2000, one open window of class "wx". -/
theorem C9_bonus_formula_witness :
    calculate_bonus_score extC9 appC9 = spec_bonus_formula extC9 appC9 :=
  C9_bonus_formula extC9 appC9
    (fun entry h => by
      have h' : some ({ last_used := 1500, use_count := 4 } : HistoryEntry) = some entry := h
      rw [← Option.some.inj h']
      decide)
    (by decide)

/-- C10: the elapsed-seconds computation of `calculate_bonus_score` is an
unguarded wrapping u64 subtraction. Under the precondition
`last_used ≤ now` it computes the true elapsed time (first conjunct, at
arbitrary clock values); for a heatmap record carrying the future stamp
10^12 at clock 1000 it underflows to the negative value -999999999000, and
the resulting bonus score is the absurd 100000009920 instead of a
meaningful recency score. -/
theorem C10_wrapping_subtraction (now last : Nat) (h1 : last ≤ now) (h2 : now < 2 ^ 63) :
    toI64 (wrapSub64 now last) = (now : Int) - (last : Int) ∧
    toI64 (wrapSub64 1000 1000000000000) = -999999999000 ∧
    calculate_bonus_score extFuture (mkApp "X") = 100000009920 :=
  ⟨toI64_wrapSub64_of_le now last h1 h2, by decide, by decide⟩

/-- Witness for C10 at clock 5 and record stamp 3. -/
theorem C10_wrapping_subtraction_witness :
    toI64 (wrapSub64 5 3) = (5 : Int) - (3 : Int) ∧
    toI64 (wrapSub64 1000 1000000000000) = -999999999000 ∧
    calculate_bonus_score extFuture (mkApp "X") = 100000009920 :=
  C10_wrapping_subtraction 5 3 (by decide) (by decide)

/-- Truncation is the identity once the list fits the limit. -/
theorem truncStep_eq_of_le (maxEntries : Nat) (l : List SearchResult)
    (h : l.length ≤ maxEntries) : truncStep maxEntries l = l := by
  unfold truncStep
  rw [if_neg (by omega)]

/-- The probe step appends at most one element on the right. -/
theorem probeStep_shape (ext : ExtEnv) (query : String) (seen : Bool)
    (scan : List SearchResult) :
    ∃ t, probeStep ext query seen scan = scan ++ t ∧ t.length ≤ 1 := by
  unfold probeStep
  by_cases h : seen = true
  · exact ⟨[], by simp [h], by simp⟩
  · cases hb : ext.binProbe query with
    | none => exact ⟨[], by simp [h, hb], by simp⟩
    | some res => exact ⟨[res], by simp [h, hb], by simp⟩

/-- The web fallback appends at most one element on the right. -/
theorem webFallbackStep_shape (ext : ExtEnv) (query : String) (cfg : Config)
    (r : List SearchResult) :
    ∃ t, webFallbackStep ext query cfg r = r ++ t ∧ t.length ≤ 1 := by
  unfold webFallbackStep
  by_cases h : (r.isEmpty && cfg.web_search.enabled && !should_exclude_web_search query) = true
  · exact ⟨[create_web_search_entry ext query cfg.web_search], by simp [h], by simp⟩
  · exact ⟨[], by simp [h], by simp⟩

/-- The calculator fallback appends at most one element on the right. -/
theorem calcFallbackStep_shape (ext : ExtEnv) (query : String) (cfg : Config)
    (r : List SearchResult) :
    ∃ t, calcFallbackStep ext query cfg r = r ++ t ∧ t.length ≤ 1 := by
  unfold calcFallbackStep
  by_cases h : (r.isEmpty && cfg.modes.calculator && (query.data.headD ' ').isDigit) = true
  · exact ⟨[create_calc_entry ext query], by rw [if_pos h], by simp⟩
  · exact ⟨[], by rw [if_neg h]; simp, by simp⟩

/-- For a non-empty query the search is the Fuzzy arm followed by the
web-append step. -/
theorem search_applications_nonempty (ext : ExtEnv) (query : String) (cfg : Config)
    (cat : List AppEntry) (hne : query.data.isEmpty = false) :
    search_applications ext query cfg cat =
      webAppendStep ext query cfg (search_fuzzy ext query (asciiLower query) cfg cat) := by
  unfold search_applications
  rw [hne]
  simp

/-- An entry whose lowercased name equals the lowercased query contributes
its exact-name result (the first thing it pushes). -/
theorem exact_mem_entryStep (ext : ExtEnv) (sa : Bool) (query qLower : String)
    (app : AppEntry) (h : eqIgnoreAsciiCase (asciiLower app.name) qLower = true) :
    (⟨app, BONUS_SCORE_BINARY + calculate_bonus_score ext app⟩ : SearchResult) ∈
      (entryStep ext sa query qLower app).1 := by
  simp only [entryStep, h, if_true]
  simp [List.mem_append]

/-- The web-append step either leaves the results alone or appends the
synthetic web entry, re-sorts and re-truncates. -/
theorem webAppendStep_cases (ext : ExtEnv) (query : String) (cfg : Config)
    (r : List SearchResult) :
    webAppendStep ext query cfg r = r ∨
    webAppendStep ext query cfg r =
      truncStep cfg.window.max_entries (insSort scoreDescLe
        (r ++ [create_web_search_entry ext query cfg.web_search])) := by
  unfold webAppendStep
  split
  · right; rfl
  · left; rfl

/-- When the scan leaves four spare slots below the entry limit, the whole
post-scan pipeline (probe, fallbacks, sort, truncation, web append) keeps
every scan element and returns a score-descending list. -/
theorem pipeline_keeps_scan (ext : ExtEnv) (query : String) (cfg : Config)
    (seen : Bool) (scan : List SearchResult) (X : SearchResult)
    (hmem : X ∈ scan) (hroom : scan.length + 4 ≤ cfg.window.max_entries) :
    X ∈ webAppendStep ext query cfg (truncStep cfg.window.max_entries (insSort scoreDescLe
        (calcFallbackStep ext query cfg (webFallbackStep ext query cfg
          (probeStep ext query seen scan))))) ∧
    (webAppendStep ext query cfg (truncStep cfg.window.max_entries (insSort scoreDescLe
        (calcFallbackStep ext query cfg (webFallbackStep ext query cfg
          (probeStep ext query seen scan)))))).Pairwise
      (fun a b => scoreDescLe a b = true) := by
  obtain ⟨t1, he1, hl1⟩ := probeStep_shape ext query seen scan
  obtain ⟨t2, he2, hl2⟩ := webFallbackStep_shape ext query cfg (probeStep ext query seen scan)
  obtain ⟨t3, he3, hl3⟩ := calcFallbackStep_shape ext query cfg
    (webFallbackStep ext query cfg (probeStep ext query seen scan))
  have hr3 : calcFallbackStep ext query cfg (webFallbackStep ext query cfg
      (probeStep ext query seen scan)) = ((scan ++ t1) ++ t2) ++ t3 := by
    rw [he3, he2, he1]
  have hlen3 : (((scan ++ t1) ++ t2) ++ t3).length ≤ scan.length + 3 := by
    simp only [List.length_append]
    omega
  have hmem3 : X ∈ ((scan ++ t1) ++ t2) ++ t3 :=
    List.mem_append_left _ (List.mem_append_left _ (List.mem_append_left _ hmem))
  rw [hr3]
  rw [truncStep_eq_of_le _ _ (by rw [length_insSort]; omega)]
  have hmem_s : X ∈ insSort scoreDescLe (((scan ++ t1) ++ t2) ++ t3) :=
    (mem_insSort _ _ X).mpr hmem3
  have hlen_s : (insSort scoreDescLe (((scan ++ t1) ++ t2) ++ t3)).length ≤ scan.length + 3 := by
    rw [length_insSort]
    exact hlen3
  rcases webAppendStep_cases ext query cfg
      (insSort scoreDescLe (((scan ++ t1) ++ t2) ++ t3)) with hw | hw
  · rw [hw]
    exact ⟨hmem_s, pairwise_insSort scoreDescLe_total scoreDescLe_trans _⟩
  · rw [hw]
    rw [truncStep_eq_of_le _ _ (by rw [length_insSort]; simp only [List.length_append, List.length_singleton]; omega)]
    exact ⟨(mem_insSort _ _ X).mpr (List.mem_append_left _ hmem_s),
      pairwise_insSort scoreDescLe_total scoreDescLe_trans _⟩

/-- In a score-descending list, any member strictly outranks (appears
before) every element of strictly smaller score. -/
theorem index_of_sorted (l : List SearchResult) (X : SearchResult)
    (hmem : X ∈ l) (hsort : l.Pairwise (fun a b => scoreDescLe a b = true)) :
    ∃ i : Nat, ∃ hi : i < l.length, l[i] = X ∧
      ∀ (j : Nat) (hj : j < l.length), l[j].score < X.score → i < j := by
  rcases List.mem_iff_getElem.mp hmem with ⟨i, hi, hXi⟩
  refine ⟨i, hi, hXi, ?_⟩
  intro j hj hlt
  rcases Nat.lt_trichotomy i j with h | h | h
  · exact h
  · exfalso
    subst h
    rw [hXi] at hlt
    exact lt_irrefl _ hlt
  · exfalso
    have hp := List.pairwise_iff_getElem.mp hsort j i hj hi h
    simp only [scoreDescLe, decide_eq_true_eq] at hp
    rw [hXi] at hp
    omega

/-- C3 counterexample: query "firefox" against a catalogue holding the
exactly-named entry "Firefox" (never used, generic icon, bonus 0) and the
fuzzy-only entry "Fire Fox Nightly" (recent heavy use, own icon, bonus
11200). The exact-name result scores 3000 but the purely fuzzy result
scores 11312 and is ranked ABOVE it, refuting "ranked above any result
produced only by a subsequence fuzzy match". -/
theorem C3_counterexample :
    (search_applications extC3 "firefox" cfg0 [appExact, appFuzzy]).map
      (fun r => (r.app.name, r.score)) =
      [("Fire Fox Nightly", 11312), ("Firefox", 3000)] := by
  decide

/-- C3 amended: the exact-name result (flat bonus `BONUS_SCORE_BINARY`, the
highest flat tier, plus the entry's own usage/icon/window bonus) is present
whenever truncation cannot interfere, and it is ranked above every result
of strictly smaller total score — but only above those: a fuzzy-only result
whose usage bonus makes its total larger may legitimately outrank it. -/
theorem C3_amended_exact_rank (ext : ExtEnv) (query : String) (cfg : Config)
    (cat : List AppEntry) (A : AppEntry)
    (hq : query.data.isEmpty = false)
    (hA : A ∈ cat)
    (hexact : eqIgnoreAsciiCase (asciiLower A.name) (asciiLower query) = true)
    (hroom : (fuzzyScan ext cfg.window.show_actions query (asciiLower query) cat).length + 4 ≤
      cfg.window.max_entries) :
    ∃ i : Nat, ∃ hi : i < (search_applications ext query cfg cat).length,
      (search_applications ext query cfg cat)[i] =
        ⟨A, BONUS_SCORE_BINARY + calculate_bonus_score ext A⟩ ∧
      ∀ (j : Nat) (hj : j < (search_applications ext query cfg cat).length),
        (search_applications ext query cfg cat)[j].score <
          BONUS_SCORE_BINARY + calculate_bonus_score ext A → i < j := by
  have hmem_scan : (⟨A, BONUS_SCORE_BINARY + calculate_bonus_score ext A⟩ : SearchResult) ∈
      fuzzyScan ext cfg.window.show_actions query (asciiLower query) cat :=
    List.mem_flatMap.mpr ⟨A, hA,
      exact_mem_entryStep ext cfg.window.show_actions query (asciiLower query) A hexact⟩
  have hkeep := pipeline_keeps_scan ext query cfg
    (seenQuery ext cfg.window.show_actions query (asciiLower query) cat)
    (fuzzyScan ext cfg.window.show_actions query (asciiLower query) cat)
    ⟨A, BONUS_SCORE_BINARY + calculate_bonus_score ext A⟩ hmem_scan hroom
  rw [search_applications_nonempty ext query cfg cat hq]
  unfold search_fuzzy
  exact index_of_sorted _ _ hkeep.1 hkeep.2

/-- Witness for the C3 amended statement: query "firefox" against the
one-entry catalogue ["Firefox"]. -/
theorem C3_amended_exact_rank_witness :
    ∃ i : Nat, ∃ hi : i < (search_applications extNil "firefox" cfg0 [appExact]).length,
      (search_applications extNil "firefox" cfg0 [appExact])[i] =
        ⟨appExact, BONUS_SCORE_BINARY + calculate_bonus_score extNil appExact⟩ ∧
      ∀ (j : Nat) (hj : j < (search_applications extNil "firefox" cfg0 [appExact]).length),
        (search_applications extNil "firefox" cfg0 [appExact])[j].score <
          BONUS_SCORE_BINARY + calculate_bonus_score extNil appExact → i < j :=
  C3_amended_exact_rank extNil "firefox" cfg0 [appExact] appExact (by decide)
    (List.mem_singleton_self _) (by decide) (by decide)
